import Mathlib

/-!
Verification of the annotation parser in `src/attr.rs` of rust-derivative.

The parser reads `#[derivative(...)]` attributes on a type or a field and
builds per-capability configuration records.  The embedding below follows the
source closely: `syn` syntax nodes become inductive types, the external `syn`
parsers (`parse_where_clause`, `parse_path`, `parse_expr`) become an abstract
collaborator record `Ext`, the `match_attributes!` macro becomes a dispatch
loop over an association list of per-option handlers (one entry per arm of the
generated `match`), and the nested `for` loops of `for_all_attr!` become
explicit recursions with early error return (`Except`).
-/

namespace Derivative

/-- The subset of `syn::Lit` the code distinguishes: a string literal, or
anything else (rejected by `str_or_err`). -/
inductive Lit where
  | str (value : String)
  | other
deriving Repr

/-- Mirrors `syn::MetaItem`: a bare word, a list `name(...)`, or `name = lit`. -/
inductive MetaItem where
  | word (name : String)
  | list (name : String) (values : List MetaItem)
  | nameValue (name : String) (value : Lit)
deriving Repr

/-- Mirrors `syn::Attribute`, keeping only the `value` meta item the code reads. -/
structure Attribute where
  value : MetaItem
deriving Repr

/-- Mirrors `syn::WhereClause`: the code only uses its `predicates`. -/
structure WhereClause (P : Type) where
  predicates : List P

/-- The external grammar parsers (`syn::parse_where_clause`, `syn::parse_path`,
`syn::parse_expr`), abstracted as a collaborator: `P` stands for
`syn::WherePredicate`, `Pa` for `syn::Path`, `E` for `syn::Expr`. -/
structure Ext (P Pa E : Type) where
  parse_where_clause : String → Except String (WhereClause P)
  parse_path : String → Except String Pa
  parse_expr : String → Except String E

/-- Mirrors `InputClone`. -/
structure InputClone (P : Type) where
  bounds : Option (List P) := none
  clone_from : Bool := false

/-- Mirrors `InputCopy`. -/
structure InputCopy (P : Type) where
  bounds : Option (List P) := none

/-- Mirrors `InputDebug`. -/
structure InputDebug (P : Type) where
  bounds : Option (List P) := none
  transparent : Bool := false

/-- Mirrors `InputDefault`. -/
structure InputDefault (P : Type) where
  bounds : Option (List P) := none
  new : Bool := false

/-- Mirrors `InputEq`. -/
structure InputEq (P : Type) where
  bounds : Option (List P) := none

/-- Mirrors `InputPartialEq`. -/
structure InputPartialEq (P : Type) where
  bounds : Option (List P) := none
  on_enum : Bool := false

/-- Mirrors `Input`: the `derivative` attributes on the input type. -/
structure Input (P : Type) where
  clone : Option (InputClone P) := none
  copy : Option (InputCopy P) := none
  debug : Option (InputDebug P) := none
  default : Option (InputDefault P) := none
  eq : Option (InputEq P) := none
  partial_eq : Option (InputPartialEq P) := none

/-- Mirrors `FieldClone`. -/
structure FieldClone (P : Type) where
  bounds : Option (List P) := none

/-- Mirrors `FieldDebug`. -/
structure FieldDebug (P Pa : Type) where
  bounds : Option (List P) := none
  format_with : Option Pa := none
  ignore : Bool := false

/-- Mirrors `FieldDefault`. -/
structure FieldDefault (P E : Type) where
  bounds : Option (List P) := none
  value : Option E := none

/-- Mirrors `FieldPartialEq`. -/
structure FieldPartialEq (P Pa : Type) where
  bounds : Option (List P) := none
  compare_with : Option Pa := none
  ignore : Bool := false

/-- Mirrors `Field`: the `derivative` attributes on a field. -/
structure Field (P Pa E : Type) where
  clone : FieldClone P := {}
  copy_bound : Option (List P) := none
  debug : FieldDebug P Pa := {}
  default : FieldDefault P E := {}
  eq_bound : Option (List P) := none
  partial_eq : FieldPartialEq P Pa := {}

/-- Mirrors `syn::Field`, keeping only the `attrs` list the code reads. -/
structure SynField where
  attrs : List Attribute

/-- Mirrors `str_or_err`. -/
def str_or_err : Lit → Except String String
  | .str value => .ok value
  | .other => .error "Expected string"

/-- The inner `values.iter().map(...).collect()` of `read_items` on a list
form: every child must be a name-value with a string literal. -/
def read_values : List MetaItem → Except String (List (String × Option String))
  | [] => .ok []
  | value :: values =>
    match value with
    | .word _ => .error "Expected named value"
    | .list _ _ => .error "Expected named value"
    | .nameValue n v =>
      match str_or_err v with
      | .ok s => (read_values values).map fun rest => (n, some s) :: rest
      | .error e => .error e

/-- Mirrors `read_items`: normalize one `syn::MetaItem` into
`(name, [(key, optional value)])`. -/
def read_items : MetaItem → Except String (String × List (String × Option String))
  | .word name => .ok (name, [])
  | .list name values => (read_values values).map fun vs => (name, vs)
  | .nameValue name value =>
    match str_or_err value with
    | .ok v => .ok (name, [(v, none)])
    | .error e => .error e

/-- Mirrors `derivative_attribute`: keep only `derivative(...)` attributes. -/
def derivative_attribute (attr : Attribute) : Option (List MetaItem) :=
  match attr.value with
  | .list name mis => if name = "derivative" then some mis else none
  | .word _ => none
  | .nameValue _ _ => none

/-- Mirrors `parse_boolean_meta_item`. -/
def parse_boolean_meta_item (item : Option String) (default : Bool) (name : String) :
    Except String Bool :=
  match item with
  | some s =>
    if s = "true" then .ok true
    else if s = "false" then .ok false
    else .error ("Invalid value for `" ++ name ++ "`")
  | none => .ok default

/-- Mirrors `parse_bound`: take the accumulated bounds (defaulted), require a
value, treat the empty string as a no-op, otherwise wrap the value as
`where <value>`, hand it to the external parser and append its predicates. -/
def parse_bound {P Pa E : Type} (ext : Ext P Pa E) (opt_bounds : Option (List P)) :
    Option String → Except String (Option (List P))
  | none => .error "`bound` needs a value"
  | some bound =>
    if bound = "" then .ok (some (opt_bounds.getD []))
    else
      match ext.parse_where_clause ("where " ++ bound) with
      | .ok where_clause => .ok (some (opt_bounds.getD [] ++ where_clause.predicates))
      | .error e => .error e

/-- One arm of the `match` the `match_attributes!` macro generates: the option
key, and the state update its body performs. -/
abbrev Handlers (A : Type) : Type :=
  List (String × (A → Option String → Except String A))

/-- Sequential key comparison of the generated `match name { "key" => ... }`. -/
def find_handler {A : Type} (name : String) : Handlers A →
    Option (A → Option String → Except String A)
  | [] => none
  | (key, handler) :: handlers =>
    if name = key then some handler else find_handler name handlers

/-- Mirrors the option loop of `match_attributes!`: process each
`(name, value)` in order, dispatching on the name; an unrecognized name is the
fatal error `unknown attribute` (backquoted name), and a handler error
propagates (the `try!` early return). -/
def match_attributes {A : Type} (handlers : Handlers A) :
    A → List (String × Option String) → Except String A
  | a, [] => .ok a
  | a, (name, value) :: values =>
    match find_handler name handlers with
    | some handler =>
      match handler a value with
      | .ok a' => match_attributes handlers a' values
      | .error e => .error e
    | none => .error ("unknown attribute `" ++ name ++ "`")

/-- The `"bound" => try!(parse_bound(&mut <place>, value))` arm, with the
place captured as a getter and an updater. -/
def bound_handler {P Pa E A : Type} (ext : Ext P Pa E) (get : A → Option (List P))
    (upd : A → Option (List P) → A) : A → Option String → Except String A :=
  fun a value => (parse_bound ext (get a) value).map fun b => upd a b

/-- A `<flag> = try!(parse_boolean_meta_item(&value, default, name))` arm. -/
def bool_handler {A : Type} (default : Bool) (name : String) (upd : A → Bool → A) :
    A → Option String → Except String A :=
  fun a value => (parse_boolean_meta_item value default name).map fun v => upd a v

/-- Arms of the `"Clone"` accumulator in `Input::from_ast`. -/
def clone_handlers {P Pa E : Type} (ext : Ext P Pa E) : Handlers (InputClone P) :=
  [("bound", bound_handler ext (fun c => c.bounds) fun c b => { c with bounds := b }),
   ("clone_from", bool_handler true "clone_from" fun c v => { c with clone_from := v })]

/-- Arms of the `"Copy"` accumulator in `Input::from_ast`. -/
def copy_handlers {P Pa E : Type} (ext : Ext P Pa E) : Handlers (InputCopy P) :=
  [("bound", bound_handler ext (fun c => c.bounds) fun c b => { c with bounds := b })]

/-- Arms of the `"Debug"` accumulator in `Input::from_ast`. -/
def debug_handlers {P Pa E : Type} (ext : Ext P Pa E) : Handlers (InputDebug P) :=
  [("bound", bound_handler ext (fun d => d.bounds) fun d b => { d with bounds := b }),
   ("transparent", bool_handler true "transparent" fun d v => { d with transparent := v })]

/-- Arms of the `"Default"` accumulator in `Input::from_ast`. -/
def default_handlers {P Pa E : Type} (ext : Ext P Pa E) : Handlers (InputDefault P) :=
  [("bound", bound_handler ext (fun d => d.bounds) fun d b => { d with bounds := b }),
   ("new", bool_handler true "new" fun d v => { d with new := v })]

/-- Arms of the `"Eq"` accumulator in `Input::from_ast`. -/
def eq_handlers {P Pa E : Type} (ext : Ext P Pa E) : Handlers (InputEq P) :=
  [("bound", bound_handler ext (fun d => d.bounds) fun d b => { d with bounds := b })]

/-- Arms of the `"PartialEq"` accumulator in `Input::from_ast`. -/
def partial_eq_handlers {P Pa E : Type} (ext : Ext P Pa E) : Handlers (InputPartialEq P) :=
  [("bound", bound_handler ext (fun d => d.bounds) fun d b => { d with bounds := b }),
   ("feature_allow_slow_enum",
    bool_handler true "feature_allow_slow_enum" fun d v => { d with on_enum := v })]

/-- One pass of the dispatch `match` in `Input::from_ast`: normalize the item,
route by capability name (taking the accumulated sub-record, defaulted, and
storing it back), or fail with `unknown trait` (backquoted name). -/
def Input.run_item {P Pa E : Type} (ext : Ext P Pa E) (input : Input P)
    (item : MetaItem) : Except String (Input P) :=
  match read_items item with
  | .error e => .error e
  | .ok (name, values) =>
    if name = "Clone" then
      (match_attributes (clone_handlers ext) (input.clone.getD {}) values).map
        fun clone => { input with clone := some clone }
    else if name = "Copy" then
      (match_attributes (copy_handlers ext) (input.copy.getD {}) values).map
        fun copy => { input with copy := some copy }
    else if name = "Debug" then
      (match_attributes (debug_handlers ext) (input.debug.getD {}) values).map
        fun debug => { input with debug := some debug }
    else if name = "Default" then
      (match_attributes (default_handlers ext) (input.default.getD {}) values).map
        fun default => { input with default := some default }
    else if name = "Eq" then
      (match_attributes (eq_handlers ext) (input.eq.getD {}) values).map
        fun eq => { input with eq := some eq }
    else if name = "PartialEq" then
      (match_attributes (partial_eq_handlers ext) (input.partial_eq.getD {}) values).map
        fun partial_eq => { input with partial_eq := some partial_eq }
    else .error ("unknown trait `" ++ name ++ "`")

/-- The inner loop of `for_all_attr!` over the meta items of one
`derivative(...)` block, with early error return. -/
def Input.run_block {P Pa E : Type} (ext : Ext P Pa E) :
    Input P → List MetaItem → Except String (Input P)
  | input, [] => .ok input
  | input, item :: items =>
    match Input.run_item ext input item with
    | .ok input' => Input.run_block ext input' items
    | .error e => .error e

/-- The outer loop of `for_all_attr!` over the filtered `derivative` blocks. -/
def Input.run_all {P Pa E : Type} (ext : Ext P Pa E) :
    Input P → List (List MetaItem) → Except String (Input P)
  | input, [] => .ok input
  | input, mis :: blocks =>
    match Input.run_block ext input mis with
    | .ok input' => Input.run_all ext input' blocks
    | .error e => .error e

/-- Mirrors `Input::from_ast`. -/
def Input.from_ast {P Pa E : Type} (ext : Ext P Pa E) (attrs : List Attribute) :
    Except String (Input P) :=
  Input.run_all ext {} (attrs.filterMap derivative_attribute)

/-- Mirrors `Input::clone_bound`. -/
def Input.clone_bound {P : Type} (self : Input P) : Option (List P) :=
  self.clone.bind fun d => d.bounds

/-- Mirrors `Input::copy_bound`. -/
def Input.copy_bound {P : Type} (self : Input P) : Option (List P) :=
  self.copy.bind fun d => d.bounds

/-- Mirrors `Input::debug_bound`. -/
def Input.debug_bound {P : Type} (self : Input P) : Option (List P) :=
  self.debug.bind fun d => d.bounds

/-- Mirrors `Input::debug_transparent`. -/
def Input.debug_transparent {P : Type} (self : Input P) : Bool :=
  self.debug.elim false fun d => d.transparent

/-- Mirrors `Input::default_bound`. -/
def Input.default_bound {P : Type} (self : Input P) : Option (List P) :=
  self.default.bind fun d => d.bounds

/-- Mirrors `Input::eq_bound`. -/
def Input.eq_bound {P : Type} (self : Input P) : Option (List P) :=
  self.eq.bind fun d => d.bounds

/-- Mirrors `Input::partial_eq_bound`. -/
def Input.partial_eq_bound {P : Type} (self : Input P) : Option (List P) :=
  self.partial_eq.bind fun d => d.bounds

/-- Mirrors `Input::partial_eq_on_enum`. -/
def Input.partial_eq_on_enum {P : Type} (self : Input P) : Bool :=
  self.partial_eq.elim false fun d => d.on_enum

/-- Arms of the `"Debug"` accumulator in `Field::from_ast` (the state is the
whole `Field`, written through directly, as in the source). -/
def field_debug_handlers {P Pa E : Type} (ext : Ext P Pa E) : Handlers (Field P Pa E) :=
  [("bound", bound_handler ext (fun out => out.debug.bounds)
      fun out b => { out with debug := { out.debug with bounds := b } }),
   ("format_with", fun out value =>
      match value with
      | none => .error "`format_with` needs a value"
      | some path =>
        (ext.parse_path path).map fun p =>
          { out with debug := { out.debug with format_with := some p } }),
   ("ignore", bool_handler true "ignore"
      fun out v => { out with debug := { out.debug with ignore := v } })]

/-- Arms of the `"Default"` accumulator in `Field::from_ast`. -/
def field_default_handlers {P Pa E : Type} (ext : Ext P Pa E) : Handlers (Field P Pa E) :=
  [("bound", bound_handler ext (fun out => out.default.bounds)
      fun out b => { out with default := { out.default with bounds := b } }),
   ("value", fun out value =>
      match value with
      | none => .error "`value` needs a value"
      | some v =>
        (ext.parse_expr v).map fun e =>
          { out with default := { out.default with value := some e } })]

/-- Arms of the `"Eq"` accumulator in `Field::from_ast`. -/
def field_eq_handlers {P Pa E : Type} (ext : Ext P Pa E) : Handlers (Field P Pa E) :=
  [("bound", bound_handler ext (fun out => out.eq_bound)
      fun out b => { out with eq_bound := b })]

/-- Arms of the `"PartialEq"` accumulator in `Field::from_ast`. -/
def field_partial_eq_handlers {P Pa E : Type} (ext : Ext P Pa E) :
    Handlers (Field P Pa E) :=
  [("bound", bound_handler ext (fun out => out.partial_eq.bounds)
      fun out b => { out with partial_eq := { out.partial_eq with bounds := b } }),
   ("compare_with", fun out value =>
      match value with
      | none => .error "`compare_with` needs a value"
      | some path =>
        (ext.parse_path path).map fun p =>
          { out with partial_eq := { out.partial_eq with compare_with := some p } }),
   ("ignore", bool_handler true "ignore"
      fun out v => { out with partial_eq := { out.partial_eq with ignore := v } })]

/-- One pass of the dispatch `match` in `Field::from_ast`: only `Debug`,
`Default`, `Eq` and `PartialEq` are recognized at field scope. -/
def Field.run_item {P Pa E : Type} (ext : Ext P Pa E) (out : Field P Pa E)
    (item : MetaItem) : Except String (Field P Pa E) :=
  match read_items item with
  | .error e => .error e
  | .ok (name, values) =>
    if name = "Debug" then match_attributes (field_debug_handlers ext) out values
    else if name = "Default" then match_attributes (field_default_handlers ext) out values
    else if name = "Eq" then match_attributes (field_eq_handlers ext) out values
    else if name = "PartialEq" then
      match_attributes (field_partial_eq_handlers ext) out values
    else .error ("unknown trait `" ++ name ++ "`")

/-- The inner loop of `for_all_attr!` in `Field::from_ast`. -/
def Field.run_block {P Pa E : Type} (ext : Ext P Pa E) :
    Field P Pa E → List MetaItem → Except String (Field P Pa E)
  | out, [] => .ok out
  | out, item :: items =>
    match Field.run_item ext out item with
    | .ok out' => Field.run_block ext out' items
    | .error e => .error e

/-- The outer loop of `for_all_attr!` in `Field::from_ast`. -/
def Field.run_all {P Pa E : Type} (ext : Ext P Pa E) :
    Field P Pa E → List (List MetaItem) → Except String (Field P Pa E)
  | out, [] => .ok out
  | out, mis :: blocks =>
    match Field.run_block ext out mis with
    | .ok out' => Field.run_all ext out' blocks
    | .error e => .error e

/-- Mirrors `Field::from_ast`. -/
def Field.from_ast {P Pa E : Type} (ext : Ext P Pa E) (field : SynField) :
    Except String (Field P Pa E) :=
  Field.run_all ext {} (field.attrs.filterMap derivative_attribute)

/-- Mirrors `Field::clone_bound`. -/
def Field.clone_bound {P Pa E : Type} (self : Field P Pa E) : Option (List P) :=
  self.clone.bounds

/-- Mirrors `Field::debug_bound`. -/
def Field.debug_bound {P Pa E : Type} (self : Field P Pa E) : Option (List P) :=
  self.debug.bounds

/-- Mirrors `Field::debug_format_with`. -/
def Field.debug_format_with {P Pa E : Type} (self : Field P Pa E) : Option Pa :=
  self.debug.format_with

/-- Mirrors `Field::ignore_debug`. -/
def Field.ignore_debug {P Pa E : Type} (self : Field P Pa E) : Bool :=
  self.debug.ignore

/-- Mirrors `Field::default_bound`. -/
def Field.default_bound {P Pa E : Type} (self : Field P Pa E) : Option (List P) :=
  self.default.bounds

/-- Mirrors `Field::default_value`. -/
def Field.default_value {P Pa E : Type} (self : Field P Pa E) : Option E :=
  self.default.value

/-- Mirrors `Field::partial_eq_bound`. -/
def Field.partial_eq_bound {P Pa E : Type} (self : Field P Pa E) : Option (List P) :=
  self.partial_eq.bounds

/-- Mirrors `Field::partial_eq_compare_with`. -/
def Field.partial_eq_compare_with {P Pa E : Type} (self : Field P Pa E) : Option Pa :=
  self.partial_eq.compare_with

/-- Mirrors `Field::ignore_partial_eq`. -/
def Field.ignore_partial_eq {P Pa E : Type} (self : Field P Pa E) : Bool :=
  self.partial_eq.ignore

/-- The closed set of capability names recognized at type scope. -/
inductive TCap where
  | clone | copy | debug | default | eq | partialEq
deriving DecidableEq, Repr

/-- The annotation name of a type-scope capability. -/
def TCap.name : TCap → String
  | .clone => "Clone"
  | .copy => "Copy"
  | .debug => "Debug"
  | .default => "Default"
  | .eq => "Eq"
  | .partialEq => "PartialEq"

/-- The option-key whitelist of a type-scope capability. -/
def TCap.keys : TCap → List String
  | .clone => ["bound", "clone_from"]
  | .copy => ["bound"]
  | .debug => ["bound", "transparent"]
  | .default => ["bound", "new"]
  | .eq => ["bound"]
  | .partialEq => ["bound", "feature_allow_slow_enum"]

/-- The bounds a capability's type-scope accessor reports. -/
def TCap.bound {P : Type} : TCap → Input P → Option (List P)
  | .clone, input => input.clone_bound
  | .copy, input => input.copy_bound
  | .debug, input => input.debug_bound
  | .default, input => input.default_bound
  | .eq, input => input.eq_bound
  | .partialEq, input => input.partial_eq_bound

/-- Whether the capability's sub-record exists on the type-level configuration. -/
def TCap.present {P : Type} : TCap → Input P → Bool
  | .clone, input => input.clone.isSome
  | .copy, input => input.copy.isSome
  | .debug, input => input.debug.isSome
  | .default, input => input.default.isSome
  | .eq, input => input.eq.isSome
  | .partialEq, input => input.partial_eq.isSome

/-- The closed set of capability names recognized at field scope. -/
inductive FCap where
  | debug | default | eq | partialEq
deriving DecidableEq, Repr

/-- The annotation name of a field-scope capability. -/
def FCap.name : FCap → String
  | .debug => "Debug"
  | .default => "Default"
  | .eq => "Eq"
  | .partialEq => "PartialEq"

/-- The option-key whitelist of a field-scope capability. -/
def FCap.keys : FCap → List String
  | .debug => ["bound", "format_with", "ignore"]
  | .default => ["bound", "value"]
  | .eq => ["bound"]
  | .partialEq => ["bound", "compare_with", "ignore"]

/-- The handler list the field-scope dispatcher uses for a capability. -/
def FCap.handlers {P Pa E : Type} (ext : Ext P Pa E) : FCap → Handlers (Field P Pa E)
  | .debug => field_debug_handlers ext
  | .default => field_default_handlers ext
  | .eq => field_eq_handlers ext
  | .partialEq => field_partial_eq_handlers ext

/-- The bounds a capability's field-scope accessor reports. -/
def FCap.bound {P Pa E : Type} : FCap → Field P Pa E → Option (List P)
  | .debug, out => out.debug_bound
  | .default, out => out.default_bound
  | .eq, out => Field.eq_bound out
  | .partialEq, out => out.partial_eq_bound

/-- The meta item `Cap(bound = "B")`. -/
def bound_meta (cap B : String) : MetaItem :=
  .list cap [.nameValue "bound" (.str B)]

/-- The attribute `#[derivative(Cap(bound = "B"))]`. -/
def bound_attr (cap B : String) : Attribute :=
  ⟨.list "derivative" [bound_meta cap B]⟩

/-- The attribute `#[derivative(Cap = "flag")]` (the name-value shorthand, which
normalizes to the option `flag` with an absent value). -/
def shorthand_attr (cap flag : String) : Attribute :=
  ⟨.list "derivative" [.nameValue cap (.str flag)]⟩

/-- The attribute `#[derivative(Cap(key = "v"))]`. -/
def option_attr (cap key v : String) : Attribute :=
  ⟨.list "derivative" [.list cap [.nameValue key (.str v)]]⟩

/-- A concrete instantiation of the external parsers used to evaluate the
theorems below on closed inputs: a predicate, path or expression is the raw
string given to the parser. -/
def extS : Ext String String String where
  parse_where_clause s := .ok ⟨[s]⟩
  parse_path s := .ok s
  parse_expr s := .ok s

/-- A field-scope option handler that leaves the `Clone` and `Copy` parts of
the field configuration untouched. -/
def keeps_cc {P Pa E : Type}
    (h : Field P Pa E → Option String → Except String (Field P Pa E)) : Prop :=
  ∀ a v a', h a v = .ok a' → a'.clone = a.clone ∧ a'.copy_bound = a.copy_bound

end Derivative

namespace Derivative

variable {P Pa E A : Type}

theorem parse_bound_some_ok (ext : Ext P Pa E) (b : Option (List P)) (B : String)
    (ps : List P) (hB : B ≠ "")
    (hw : ext.parse_where_clause ("where " ++ B) = .ok ⟨ps⟩) :
    parse_bound ext b (some B) = .ok (some (b.getD [] ++ ps)) := by
  simp only [parse_bound, if_neg hB, hw]

theorem parse_bound_some_err (ext : Ext P Pa E) (b : Option (List P)) (B : String)
    (e : String) (hB : B ≠ "")
    (hw : ext.parse_where_clause ("where " ++ B) = .error e) :
    parse_bound ext b (some B) = .error e := by
  simp only [parse_bound, if_neg hB, hw]

theorem bound_handler_some_ok (ext : Ext P Pa E) (get : A → Option (List P))
    (upd : A → Option (List P) → A) (a : A) (B : String) (ps : List P)
    (hB : B ≠ "") (hw : ext.parse_where_clause ("where " ++ B) = .ok ⟨ps⟩) :
    bound_handler ext get upd a (some B) = .ok (upd a (some ((get a).getD [] ++ ps))) := by
  simp only [bound_handler, parse_bound_some_ok ext (get a) B ps hB hw, Except.map]

theorem find_handler_eq_none (k : String) (hs : Handlers A) :
    find_handler k hs = none ↔ k ∉ hs.map Prod.fst := by
  induction hs with
  | nil => simp [find_handler]
  | cons p hs ih =>
    obtain ⟨key, h⟩ := p
    by_cases hk : k = key
    · simp [find_handler, hk]
    · simp [find_handler, hk, ih]

theorem find_handler_mem (k : String) (hs : Handlers A)
    (h : A → Option String → Except String A) (hf : find_handler k hs = some h) :
    (k, h) ∈ hs := by
  induction hs with
  | nil => simp [find_handler] at hf
  | cons p hs ih =>
    obtain ⟨key, h'⟩ := p
    by_cases hk : k = key
    · simp only [find_handler, if_pos hk] at hf
      obtain rfl : h' = h := by simpa using hf
      simp [hk]
    · simp only [find_handler, if_neg hk] at hf
      exact List.mem_cons_of_mem _ (ih hf)

theorem match_attributes_append_ok (hs : Handlers A) :
    ∀ (vs1 : List (String × Option String)) (a a' : A),
      match_attributes hs a vs1 = .ok a' →
      ∀ vs2, match_attributes hs a (vs1 ++ vs2) = match_attributes hs a' vs2 := by
  intro vs1
  induction vs1 with
  | nil =>
    intro a a' h vs2
    obtain rfl : a = a' := by simpa [match_attributes] using h
    rfl
  | cons kv vs1 ih =>
    obtain ⟨k, v⟩ := kv
    intro a a' h vs2
    cases hf : find_handler k hs with
    | none =>
      simp only [match_attributes, hf] at h
      exact Except.noConfusion h
    | some handler =>
      cases hha : handler a v with
      | error e =>
        simp only [match_attributes, hf, hha] at h
        exact Except.noConfusion h
      | ok a1 =>
        simp only [match_attributes, hf, hha] at h
        simp only [List.cons_append, match_attributes, hf, hha]
        exact ih a1 a' h vs2

theorem match_attributes_unknown_key (hs : Handlers A)
    (pre : List (String × Option String)) (k : String) (v : Option String)
    (rest : List (String × Option String)) (a a' : A)
    (hk : find_handler k hs = none) (hpre : match_attributes hs a pre = .ok a') :
    match_attributes hs a (pre ++ (k, v) :: rest) =
      .error ("unknown attribute `" ++ k ++ "`") := by
  rw [match_attributes_append_ok hs pre a a' hpre]
  simp only [match_attributes, hk]

theorem match_attributes_single_none (hs : Handlers A) (a : A) (k : String)
    (v : Option String) (hf : find_handler k hs = none) :
    match_attributes hs a [(k, v)] = .error ("unknown attribute `" ++ k ++ "`") := by
  simp only [match_attributes, hf]

theorem input_run_all_append (ext : Ext P Pa E) :
    ∀ (bs1 : List (List MetaItem)) (i i' : Input P),
      Input.run_all ext i bs1 = .ok i' →
      ∀ bs2, Input.run_all ext i (bs1 ++ bs2) = Input.run_all ext i' bs2 := by
  intro bs1
  induction bs1 with
  | nil =>
    intro i i' h bs2
    obtain rfl : i = i' := by simpa [Input.run_all] using h
    rfl
  | cons mis bs1 ih =>
    intro i i' h bs2
    cases hb : Input.run_block ext i mis with
    | error e =>
      simp only [Input.run_all, hb] at h
      exact Except.noConfusion h
    | ok i1 =>
      simp only [Input.run_all, hb] at h
      simp only [List.cons_append, Input.run_all, hb]
      exact ih i1 i' h bs2

theorem field_run_all_append (ext : Ext P Pa E) :
    ∀ (bs1 : List (List MetaItem)) (f f' : Field P Pa E),
      Field.run_all ext f bs1 = .ok f' →
      ∀ bs2, Field.run_all ext f (bs1 ++ bs2) = Field.run_all ext f' bs2 := by
  intro bs1
  induction bs1 with
  | nil =>
    intro f f' h bs2
    obtain rfl : f = f' := by simpa [Field.run_all] using h
    rfl
  | cons mis bs1 ih =>
    intro f f' h bs2
    cases hb : Field.run_block ext f mis with
    | error e =>
      simp only [Field.run_all, hb] at h
      exact Except.noConfusion h
    | ok f1 =>
      simp only [Field.run_all, hb] at h
      simp only [List.cons_append, Field.run_all, hb]
      exact ih f1 f' h bs2

theorem from_ast_append_ok (ext : Ext P Pa E) (pre post : List Attribute) (i0 : Input P)
    (h : Input.from_ast ext pre = .ok i0) :
    Input.from_ast ext (pre ++ post) =
      Input.run_all ext i0 (post.filterMap derivative_attribute) := by
  unfold Input.from_ast at h ⊢
  rw [List.filterMap_append]
  exact input_run_all_append ext _ _ _ h _

theorem field_from_ast_append_ok (ext : Ext P Pa E) (pre post : List Attribute)
    (f0 : Field P Pa E) (h : Field.from_ast ext ⟨pre⟩ = .ok f0) :
    Field.from_ast ext ⟨pre ++ post⟩ =
      Field.run_all ext f0 (post.filterMap derivative_attribute) := by
  unfold Field.from_ast at h ⊢
  rw [List.filterMap_append]
  exact field_run_all_append ext _ _ _ h _

theorem filterMap_bound_attrs (n : String) (Bs : List String) :
    (Bs.map (bound_attr n)).filterMap derivative_attribute =
      Bs.map fun B => [bound_meta n B] := by
  induction Bs with
  | nil => rfl
  | cons B Bs ih => simp [List.filterMap_cons, derivative_attribute, bound_attr, ih]

end Derivative

namespace Derivative

variable {P Pa E : Type}

theorem run_item_bound_clone (ext : Ext P Pa E) (input : Input P) (B : String)
    (ps : List P) (hB : B ≠ "")
    (hw : ext.parse_where_clause ("where " ++ B) = .ok ⟨ps⟩) :
    Input.run_item ext input (bound_meta "Clone" B) =
      .ok { input with clone := some { input.clone.getD {} with
        bounds := some (((input.clone.getD {}).bounds).getD [] ++ ps) } } := by
  have h0 : Input.run_item ext input (bound_meta "Clone" B) =
      (match_attributes (clone_handlers ext) (input.clone.getD {}) [("bound", some B)]).map
        (fun x => { input with clone := some x }) := rfl
  have h1 : find_handler "bound" (clone_handlers ext) =
      some (bound_handler ext (fun (c : InputClone P) => c.bounds)
        (fun (c : InputClone P) b => { c with bounds := b })) := rfl
  rw [h0]
  simp only [match_attributes, h1, bound_handler_some_ok ext _ _ _ B ps hB hw, Except.map]

theorem run_item_bound_copy (ext : Ext P Pa E) (input : Input P) (B : String)
    (ps : List P) (hB : B ≠ "")
    (hw : ext.parse_where_clause ("where " ++ B) = .ok ⟨ps⟩) :
    Input.run_item ext input (bound_meta "Copy" B) =
      .ok { input with copy := some { input.copy.getD {} with
        bounds := some (((input.copy.getD {}).bounds).getD [] ++ ps) } } := by
  have h0 : Input.run_item ext input (bound_meta "Copy" B) =
      (match_attributes (copy_handlers ext) (input.copy.getD {}) [("bound", some B)]).map
        (fun x => { input with copy := some x }) := rfl
  have h1 : find_handler "bound" (copy_handlers ext) =
      some (bound_handler ext (fun (c : InputCopy P) => c.bounds)
        (fun (c : InputCopy P) b => { c with bounds := b })) := rfl
  rw [h0]
  simp only [match_attributes, h1, bound_handler_some_ok ext _ _ _ B ps hB hw, Except.map]

theorem run_item_bound_debug (ext : Ext P Pa E) (input : Input P) (B : String)
    (ps : List P) (hB : B ≠ "")
    (hw : ext.parse_where_clause ("where " ++ B) = .ok ⟨ps⟩) :
    Input.run_item ext input (bound_meta "Debug" B) =
      .ok { input with debug := some { input.debug.getD {} with
        bounds := some (((input.debug.getD {}).bounds).getD [] ++ ps) } } := by
  have h0 : Input.run_item ext input (bound_meta "Debug" B) =
      (match_attributes (debug_handlers ext) (input.debug.getD {}) [("bound", some B)]).map
        (fun x => { input with debug := some x }) := rfl
  have h1 : find_handler "bound" (debug_handlers ext) =
      some (bound_handler ext (fun (c : InputDebug P) => c.bounds)
        (fun (c : InputDebug P) b => { c with bounds := b })) := rfl
  rw [h0]
  simp only [match_attributes, h1, bound_handler_some_ok ext _ _ _ B ps hB hw, Except.map]

theorem run_item_bound_default (ext : Ext P Pa E) (input : Input P) (B : String)
    (ps : List P) (hB : B ≠ "")
    (hw : ext.parse_where_clause ("where " ++ B) = .ok ⟨ps⟩) :
    Input.run_item ext input (bound_meta "Default" B) =
      .ok { input with default := some { input.default.getD {} with
        bounds := some (((input.default.getD {}).bounds).getD [] ++ ps) } } := by
  have h0 : Input.run_item ext input (bound_meta "Default" B) =
      (match_attributes (default_handlers ext) (input.default.getD {}) [("bound", some B)]).map
        (fun x => { input with default := some x }) := rfl
  have h1 : find_handler "bound" (default_handlers ext) =
      some (bound_handler ext (fun (c : InputDefault P) => c.bounds)
        (fun (c : InputDefault P) b => { c with bounds := b })) := rfl
  rw [h0]
  simp only [match_attributes, h1, bound_handler_some_ok ext _ _ _ B ps hB hw, Except.map]

theorem run_item_bound_eq (ext : Ext P Pa E) (input : Input P) (B : String)
    (ps : List P) (hB : B ≠ "")
    (hw : ext.parse_where_clause ("where " ++ B) = .ok ⟨ps⟩) :
    Input.run_item ext input (bound_meta "Eq" B) =
      .ok { input with eq := some { input.eq.getD {} with
        bounds := some (((input.eq.getD {}).bounds).getD [] ++ ps) } } := by
  have h0 : Input.run_item ext input (bound_meta "Eq" B) =
      (match_attributes (eq_handlers ext) (input.eq.getD {}) [("bound", some B)]).map
        (fun x => { input with eq := some x }) := rfl
  have h1 : find_handler "bound" (eq_handlers ext) =
      some (bound_handler ext (fun (c : InputEq P) => c.bounds)
        (fun (c : InputEq P) b => { c with bounds := b })) := rfl
  rw [h0]
  simp only [match_attributes, h1, bound_handler_some_ok ext _ _ _ B ps hB hw, Except.map]

theorem run_item_bound_partial_eq (ext : Ext P Pa E) (input : Input P) (B : String)
    (ps : List P) (hB : B ≠ "")
    (hw : ext.parse_where_clause ("where " ++ B) = .ok ⟨ps⟩) :
    Input.run_item ext input (bound_meta "PartialEq" B) =
      .ok { input with partial_eq := some { input.partial_eq.getD {} with
        bounds := some (((input.partial_eq.getD {}).bounds).getD [] ++ ps) } } := by
  have h0 : Input.run_item ext input (bound_meta "PartialEq" B) =
      (match_attributes (partial_eq_handlers ext) (input.partial_eq.getD {}) [("bound", some B)]).map
        (fun x => { input with partial_eq := some x }) := rfl
  have h1 : find_handler "bound" (partial_eq_handlers ext) =
      some (bound_handler ext (fun (c : InputPartialEq P) => c.bounds)
        (fun (c : InputPartialEq P) b => { c with bounds := b })) := rfl
  rw [h0]
  simp only [match_attributes, h1, bound_handler_some_ok ext _ _ _ B ps hB hw, Except.map]

theorem run_item_bound_fdebug (ext : Ext P Pa E) (out : Field P Pa E) (B : String)
    (ps : List P) (hB : B ≠ "")
    (hw : ext.parse_where_clause ("where " ++ B) = .ok ⟨ps⟩) :
    Field.run_item ext out (bound_meta "Debug" B) =
      .ok { out with debug := { out.debug with bounds := some ((out.debug.bounds).getD [] ++ ps) } } := by
  have h0 : Field.run_item ext out (bound_meta "Debug" B) =
      match_attributes (field_debug_handlers ext) out [("bound", some B)] := rfl
  have h1 : find_handler "bound" (field_debug_handlers ext) =
      some (bound_handler ext (fun (o : Field P Pa E) => o.debug.bounds)
        (fun (o : Field P Pa E) b => { o with debug := { o.debug with bounds := b } })) := rfl
  rw [h0]
  simp only [match_attributes, h1, bound_handler_some_ok ext _ _ _ B ps hB hw]

theorem run_item_bound_fdefault (ext : Ext P Pa E) (out : Field P Pa E) (B : String)
    (ps : List P) (hB : B ≠ "")
    (hw : ext.parse_where_clause ("where " ++ B) = .ok ⟨ps⟩) :
    Field.run_item ext out (bound_meta "Default" B) =
      .ok { out with default := { out.default with bounds := some ((out.default.bounds).getD [] ++ ps) } } := by
  have h0 : Field.run_item ext out (bound_meta "Default" B) =
      match_attributes (field_default_handlers ext) out [("bound", some B)] := rfl
  have h1 : find_handler "bound" (field_default_handlers ext) =
      some (bound_handler ext (fun (o : Field P Pa E) => o.default.bounds)
        (fun (o : Field P Pa E) b => { o with default := { o.default with bounds := b } })) := rfl
  rw [h0]
  simp only [match_attributes, h1, bound_handler_some_ok ext _ _ _ B ps hB hw]

theorem run_item_bound_feq (ext : Ext P Pa E) (out : Field P Pa E) (B : String)
    (ps : List P) (hB : B ≠ "")
    (hw : ext.parse_where_clause ("where " ++ B) = .ok ⟨ps⟩) :
    Field.run_item ext out (bound_meta "Eq" B) =
      .ok { out with eq_bound := some ((out.eq_bound).getD [] ++ ps) } := by
  have h0 : Field.run_item ext out (bound_meta "Eq" B) =
      match_attributes (field_eq_handlers ext) out [("bound", some B)] := rfl
  have h1 : find_handler "bound" (field_eq_handlers ext) =
      some (bound_handler ext (fun (o : Field P Pa E) => o.eq_bound)
        (fun (o : Field P Pa E) b => { o with eq_bound := b })) := rfl
  rw [h0]
  simp only [match_attributes, h1, bound_handler_some_ok ext _ _ _ B ps hB hw]

theorem run_item_bound_fpartial_eq (ext : Ext P Pa E) (out : Field P Pa E) (B : String)
    (ps : List P) (hB : B ≠ "")
    (hw : ext.parse_where_clause ("where " ++ B) = .ok ⟨ps⟩) :
    Field.run_item ext out (bound_meta "PartialEq" B) =
      .ok { out with partial_eq := { out.partial_eq with bounds := some ((out.partial_eq.bounds).getD [] ++ ps) } } := by
  have h0 : Field.run_item ext out (bound_meta "PartialEq" B) =
      match_attributes (field_partial_eq_handlers ext) out [("bound", some B)] := rfl
  have h1 : find_handler "bound" (field_partial_eq_handlers ext) =
      some (bound_handler ext (fun (o : Field P Pa E) => o.partial_eq.bounds)
        (fun (o : Field P Pa E) b => { o with partial_eq := { o.partial_eq with bounds := b } })) := rfl
  rw [h0]
  simp only [match_attributes, h1, bound_handler_some_ok ext _ _ _ B ps hB hw]

theorem run_item_bound_type (ext : Ext P Pa E) (c : TCap) (input : Input P)
    (B : String) (ps : List P) (hB : B ≠ "")
    (hw : ext.parse_where_clause ("where " ++ B) = .ok ⟨ps⟩) :
    ∃ input', Input.run_item ext input (bound_meta c.name B) = .ok input' ∧
      c.bound input' = some ((c.bound input).getD [] ++ ps) := by
  cases c with
  | clone =>
    refine ⟨_, run_item_bound_clone ext input B ps hB hw, ?_⟩
    cases hc : input.clone <;> simp [TCap.bound, Input.clone_bound, hc]
  | copy =>
    refine ⟨_, run_item_bound_copy ext input B ps hB hw, ?_⟩
    cases hc : input.copy <;> simp [TCap.bound, Input.copy_bound, hc]
  | debug =>
    refine ⟨_, run_item_bound_debug ext input B ps hB hw, ?_⟩
    cases hc : input.debug <;> simp [TCap.bound, Input.debug_bound, hc]
  | default =>
    refine ⟨_, run_item_bound_default ext input B ps hB hw, ?_⟩
    cases hc : input.default <;> simp [TCap.bound, Input.default_bound, hc]
  | eq =>
    refine ⟨_, run_item_bound_eq ext input B ps hB hw, ?_⟩
    cases hc : input.eq <;> simp [TCap.bound, Input.eq_bound, hc]
  | partialEq =>
    refine ⟨_, run_item_bound_partial_eq ext input B ps hB hw, ?_⟩
    cases hc : input.partial_eq <;> simp [TCap.bound, Input.partial_eq_bound, hc]

theorem run_item_bound_field (ext : Ext P Pa E) (c : FCap) (out : Field P Pa E)
    (B : String) (ps : List P) (hB : B ≠ "")
    (hw : ext.parse_where_clause ("where " ++ B) = .ok ⟨ps⟩) :
    ∃ out', Field.run_item ext out (bound_meta c.name B) = .ok out' ∧
      c.bound out' = some ((c.bound out).getD [] ++ ps) := by
  cases c with
  | debug =>
    exact ⟨_, run_item_bound_fdebug ext out B ps hB hw,
      by simp [FCap.bound, Field.debug_bound]⟩
  | default =>
    exact ⟨_, run_item_bound_fdefault ext out B ps hB hw,
      by simp [FCap.bound, Field.default_bound]⟩
  | eq =>
    exact ⟨_, run_item_bound_feq ext out B ps hB hw, by simp [FCap.bound]⟩
  | partialEq =>
    exact ⟨_, run_item_bound_fpartial_eq ext out B ps hB hw,
      by simp [FCap.bound, Field.partial_eq_bound]⟩

theorem tcap_bound_empty (c : TCap) : c.bound ({} : Input P) = none := by
  cases c <;> rfl

theorem fcap_bound_empty (c : FCap) : c.bound ({} : Field P Pa E) = none := by
  cases c <;> rfl

theorem run_all_bound_type (ext : Ext P Pa E) (c : TCap) :
    ∀ {Bs : List String} {fss : List (List P)},
      List.Forall₂ (fun b f => b ≠ "" ∧
        ext.parse_where_clause ("where " ++ b) = .ok ⟨f⟩) Bs fss →
      ∀ (input : Input P) (acc : List P), c.bound input = some acc →
      ∃ input', Input.run_all ext input (Bs.map fun B => [bound_meta c.name B]) = .ok input' ∧
        c.bound input' = some (acc ++ fss.flatten) := by
  intro Bs fss h
  induction h with
  | nil =>
    intro input acc hacc
    exact ⟨input, rfl, by simpa using hacc⟩
  | @cons b f Bs' fss' hbf htail ih =>
    intro input acc hacc
    obtain ⟨hB, hw⟩ := hbf
    obtain ⟨i1, h1, hb1⟩ := run_item_bound_type ext c input b f hB hw
    rw [hacc] at hb1
    simp only [Option.getD_some] at hb1
    obtain ⟨i2, h2, hb2⟩ := ih i1 (acc ++ f) hb1
    refine ⟨i2, ?_, ?_⟩
    · simp only [List.map_cons, Input.run_all, Input.run_block, h1, h2]
    · rw [hb2]
      simp [List.append_assoc]

theorem run_all_bound_field (ext : Ext P Pa E) (c : FCap) :
    ∀ {Bs : List String} {fss : List (List P)},
      List.Forall₂ (fun b f => b ≠ "" ∧
        ext.parse_where_clause ("where " ++ b) = .ok ⟨f⟩) Bs fss →
      ∀ (out : Field P Pa E) (acc : List P), c.bound out = some acc →
      ∃ out', Field.run_all ext out (Bs.map fun B => [bound_meta c.name B]) = .ok out' ∧
        c.bound out' = some (acc ++ fss.flatten) := by
  intro Bs fss h
  induction h with
  | nil =>
    intro out acc hacc
    exact ⟨out, rfl, by simpa using hacc⟩
  | @cons b f Bs' fss' hbf htail ih =>
    intro out acc hacc
    obtain ⟨hB, hw⟩ := hbf
    obtain ⟨o1, h1, hb1⟩ := run_item_bound_field ext c out b f hB hw
    rw [hacc] at hb1
    simp only [Option.getD_some] at hb1
    obtain ⟨o2, h2, hb2⟩ := ih o1 (acc ++ f) hb1
    refine ⟨o2, ?_, ?_⟩
    · simp only [List.map_cons, Field.run_all, Field.run_block, h1, h2]
    · rw [hb2]
      simp [List.append_assoc]

end Derivative

namespace Derivative

/-- C1: for a declaration whose annotations are N occurrences of
`bound="Bi"` for one capability (one annotation block per occurrence, at
either scope), the capability's resulting bounds sequence is the
concatenation of the predicate lists the external parser returns for each
`where Bi`, in occurrence order; no occurrence overwrites an earlier one. -/
theorem bound_occurrences_append_c1 :
    (∀ (P Pa E : Type) (ext : Ext P Pa E) (c : TCap) (B : String) (ps : List P)
        (Bs : List String) (fss : List (List P)),
      B ≠ "" → ext.parse_where_clause ("where " ++ B) = .ok ⟨ps⟩ →
      List.Forall₂ (fun b f => b ≠ "" ∧
        ext.parse_where_clause ("where " ++ b) = .ok ⟨f⟩) Bs fss →
      ∃ input, Input.from_ast ext ((B :: Bs).map (bound_attr c.name)) = .ok input ∧
        c.bound input = some (ps ++ fss.flatten)) ∧
    (∀ (P Pa E : Type) (ext : Ext P Pa E) (c : FCap) (B : String) (ps : List P)
        (Bs : List String) (fss : List (List P)),
      B ≠ "" → ext.parse_where_clause ("where " ++ B) = .ok ⟨ps⟩ →
      List.Forall₂ (fun b f => b ≠ "" ∧
        ext.parse_where_clause ("where " ++ b) = .ok ⟨f⟩) Bs fss →
      ∃ out, Field.from_ast ext ⟨(B :: Bs).map (bound_attr c.name)⟩ = .ok out ∧
        c.bound out = some (ps ++ fss.flatten)) := by
  constructor
  · intro P Pa E ext c B ps Bs fss hB hw h
    obtain ⟨i1, h1, hb1⟩ := run_item_bound_type ext c {} B ps hB hw
    rw [tcap_bound_empty c] at hb1
    simp only [Option.getD_none, List.nil_append] at hb1
    obtain ⟨i2, h2, hb2⟩ := run_all_bound_type ext c h i1 ps hb1
    refine ⟨i2, ?_, hb2⟩
    unfold Input.from_ast
    rw [filterMap_bound_attrs]
    simp only [List.map_cons, Input.run_all, Input.run_block, h1, h2]
  · intro P Pa E ext c B ps Bs fss hB hw h
    obtain ⟨o1, h1, hb1⟩ := run_item_bound_field ext c {} B ps hB hw
    rw [fcap_bound_empty c] at hb1
    simp only [Option.getD_none, List.nil_append] at hb1
    obtain ⟨o2, h2, hb2⟩ := run_all_bound_field ext c h o1 ps hb1
    refine ⟨o2, ?_, hb2⟩
    unfold Field.from_ast
    rw [filterMap_bound_attrs]
    simp only [List.map_cons, Field.run_all, Field.run_block, h1, h2]

/-- Witness for C1 at a concrete input: two `Debug(bound=...)` blocks on a
type append their parsed predicates in order. -/
theorem bound_occurrences_append_c1_witness :
    ∃ input, Input.from_ast extS
        (["T: Copy", "U: Clone"].map (bound_attr "Debug")) = .ok input ∧
      TCap.debug.bound input = some ["where T: Copy", "where U: Clone"] :=
  bound_occurrences_append_c1.1 String String String extS TCap.debug "T: Copy"
    ["where T: Copy"] ["U: Clone"] [["where U: Clone"]]
    (by decide) rfl (List.Forall₂.cons ⟨by decide, rfl⟩ List.Forall₂.nil)

end Derivative

namespace Derivative

/-- C2 counterexample: `derivative(Debug(transparent))` — the list form with a
bare word — does not succeed: the reader rejects it with `Expected named
value`, while `derivative(Debug(transparent="true"))` parses. -/
theorem bare_flag_list_rejected_c2_cex :
    Input.from_ast extS [⟨.list "derivative" [.list "Debug" [.word "transparent"]]⟩] =
      .error "Expected named value" ∧
    Input.from_ast extS [option_attr "Debug" "transparent" "true"] =
      .ok { debug := some { transparent := true } } :=
  ⟨rfl, rfl⟩

/-- C2 (amended): for every capability and boolean option flag, the
name-value shorthand `Capability="flag"` — which normalizes to the flag with
an absent value — yields configuration state identical to
`Capability(flag="true")`; the list form `Capability(flag)` with a bare word
is rejected by the reader with `Expected named value`. -/
theorem boolean_shorthand_equiv_c2 :
    (∀ (P Pa E : Type) (ext : Ext P Pa E),
      Input.from_ast ext [shorthand_attr "Clone" "clone_from"] =
        Input.from_ast ext [option_attr "Clone" "clone_from" "true"] ∧
      Input.from_ast ext [shorthand_attr "Debug" "transparent"] =
        Input.from_ast ext [option_attr "Debug" "transparent" "true"] ∧
      Input.from_ast ext [shorthand_attr "Default" "new"] =
        Input.from_ast ext [option_attr "Default" "new" "true"] ∧
      Input.from_ast ext [shorthand_attr "PartialEq" "feature_allow_slow_enum"] =
        Input.from_ast ext [option_attr "PartialEq" "feature_allow_slow_enum" "true"] ∧
      Field.from_ast ext ⟨[shorthand_attr "Debug" "ignore"]⟩ =
        Field.from_ast ext ⟨[option_attr "Debug" "ignore" "true"]⟩ ∧
      Field.from_ast ext ⟨[shorthand_attr "PartialEq" "ignore"]⟩ =
        Field.from_ast ext ⟨[option_attr "PartialEq" "ignore" "true"]⟩) ∧
    (∀ (P Pa E : Type) (ext : Ext P Pa E) (cap flag : String) (rest : List MetaItem),
      Input.from_ast ext [⟨.list "derivative" [.list cap (.word flag :: rest)]⟩] =
        .error "Expected named value") :=
  ⟨fun _ _ _ _ => ⟨rfl, rfl, rfl, rfl, rfl, rfl⟩, fun _ _ _ _ _ _ _ => rfl⟩

/-- C3: the boolean-with-default primitive maps `"true"` to true, `"false"`
to false, any other present string to a fatal error naming the offending
option, and an absent value to the supplied default; and every boolean option
of the system is wired with default `true`, so a bare occurrence enables it. -/
theorem parse_boolean_defaults_c3 :
    (∀ (d : Bool) (name : String),
      parse_boolean_meta_item (some "true") d name = .ok true ∧
      parse_boolean_meta_item (some "false") d name = .ok false ∧
      parse_boolean_meta_item none d name = .ok d ∧
      ∀ s : String, s ≠ "true" → s ≠ "false" →
        parse_boolean_meta_item (some s) d name =
          .error ("Invalid value for `" ++ name ++ "`")) ∧
    (∀ (P Pa E : Type) (ext : Ext P Pa E),
      Input.from_ast ext [shorthand_attr "Clone" "clone_from"] =
        .ok { clone := some { clone_from := true } } ∧
      Input.from_ast ext [shorthand_attr "Debug" "transparent"] =
        .ok { debug := some { transparent := true } } ∧
      Input.from_ast ext [shorthand_attr "Default" "new"] =
        .ok { default := some { new := true } } ∧
      Input.from_ast ext [shorthand_attr "PartialEq" "feature_allow_slow_enum"] =
        .ok { partial_eq := some { on_enum := true } } ∧
      Field.from_ast ext ⟨[shorthand_attr "Debug" "ignore"]⟩ =
        .ok { debug := { ignore := true } } ∧
      Field.from_ast ext ⟨[shorthand_attr "PartialEq" "ignore"]⟩ =
        .ok { partial_eq := { ignore := true } }) := by
  refine ⟨fun d name => ⟨rfl, rfl, rfl, fun s h1 h2 => ?_⟩,
    fun _ _ _ _ => ⟨rfl, rfl, rfl, rfl, rfl, rfl⟩⟩
  simp only [parse_boolean_meta_item, if_neg h1, if_neg h2]

/-- Witness for C3 at a concrete input: an invalid boolean literal is a fatal
error naming the option. -/
theorem parse_boolean_defaults_c3_witness :
    parse_boolean_meta_item (some "maybe") true "transparent" =
      .error "Invalid value for `transparent`" :=
  (parse_boolean_defaults_c3.1 true "transparent").2.2.2 "maybe"
    (by decide) (by decide)

/-- C4: the bounds-fragment primitive fails with an error naming `bound` on an
absent value; an empty string value succeeds and appends nothing; a non-empty
value is wrapped as `where <value>` and the external parser's predicates are
appended to the accumulated bounds; an external parse failure propagates. -/
theorem parse_bound_contract_c4 (P Pa E : Type) (ext : Ext P Pa E)
    (opt_bounds : Option (List P)) :
    parse_bound ext opt_bounds none = .error "`bound` needs a value" ∧
    parse_bound ext opt_bounds (some "") = .ok (some (opt_bounds.getD [])) ∧
    (∀ (v : String) (ps : List P), v ≠ "" →
      ext.parse_where_clause ("where " ++ v) = .ok ⟨ps⟩ →
      parse_bound ext opt_bounds (some v) = .ok (some (opt_bounds.getD [] ++ ps))) ∧
    (∀ (v e : String), v ≠ "" →
      ext.parse_where_clause ("where " ++ v) = .error e →
      parse_bound ext opt_bounds (some v) = .error e) :=
  ⟨rfl, rfl, fun v ps hv hw => parse_bound_some_ok ext opt_bounds v ps hv hw,
   fun v e hv hw => parse_bound_some_err ext opt_bounds v e hv hw⟩

/-- Witness for C4 at a concrete input: a non-empty `bound` value appends the
external parser's predicates to the accumulated bounds. -/
theorem parse_bound_contract_c4_witness :
    parse_bound extS (some ["p"]) (some "T: Copy") =
      .ok (some ["p", "where T: Copy"]) :=
  (parse_bound_contract_c4 String String String extS (some ["p"])).2.2.1
    "T: Copy" ["where T: Copy"] (by decide) rfl

/-- C5: at either scope, a `derivative` node whose normalized name is not in
the closed capability set of that scope fails the whole parse with
`unknown trait` naming it, whatever its sub-options. -/
theorem unknown_trait_rejected_c5 :
    (∀ (P Pa E : Type) (ext : Ext P Pa E) (pre : List Attribute) (mi : MetaItem)
        (name : String) (opts : List (String × Option String)) (i0 : Input P),
      Input.from_ast ext pre = .ok i0 →
      read_items mi = .ok (name, opts) →
      name ∉ ["Clone", "Copy", "Debug", "Default", "Eq", "PartialEq"] →
      Input.from_ast ext (pre ++ [⟨.list "derivative" [mi]⟩]) =
        .error ("unknown trait `" ++ name ++ "`")) ∧
    (∀ (P Pa E : Type) (ext : Ext P Pa E) (pre : List Attribute) (mi : MetaItem)
        (name : String) (opts : List (String × Option String)) (f0 : Field P Pa E),
      Field.from_ast ext ⟨pre⟩ = .ok f0 →
      read_items mi = .ok (name, opts) →
      name ∉ ["Debug", "Default", "Eq", "PartialEq"] →
      Field.from_ast ext ⟨pre ++ [⟨.list "derivative" [mi]⟩]⟩ =
        .error ("unknown trait `" ++ name ++ "`")) := by
  constructor
  · intro P Pa E ext pre mi name opts i0 hpre hmi hname
    simp only [List.mem_cons, List.not_mem_nil, or_false, not_or] at hname
    obtain ⟨h1, h2, h3, h4, h5, h6⟩ := hname
    rw [from_ast_append_ok ext pre _ i0 hpre]
    have hfm : ([(⟨.list "derivative" [mi]⟩ : Attribute)].filterMap
        derivative_attribute) = [[mi]] := rfl
    rw [hfm]
    have hrm : Input.run_item ext i0 mi =
        .error ("unknown trait `" ++ name ++ "`") := by
      simp only [Input.run_item, hmi, if_neg h1, if_neg h2, if_neg h3, if_neg h4,
        if_neg h5, if_neg h6]
    simp only [Input.run_all, Input.run_block, hrm]
  · intro P Pa E ext pre mi name opts f0 hpre hmi hname
    simp only [List.mem_cons, List.not_mem_nil, or_false, not_or] at hname
    obtain ⟨h1, h2, h3, h4⟩ := hname
    rw [field_from_ast_append_ok ext pre _ f0 hpre]
    have hfm : ([(⟨.list "derivative" [mi]⟩ : Attribute)].filterMap
        derivative_attribute) = [[mi]] := rfl
    rw [hfm]
    have hrm : Field.run_item ext f0 mi =
        .error ("unknown trait `" ++ name ++ "`") := by
      simp only [Field.run_item, hmi, if_neg h1, if_neg h2, if_neg h3, if_neg h4]
    simp only [Field.run_all, Field.run_block, hrm]

/-- Witness for C5 at a concrete input: `derivative(Hash)` fails with an
error containing `Hash`. -/
theorem unknown_trait_rejected_c5_witness :
    Input.from_ast extS [⟨.list "derivative" [.word "Hash"]⟩] =
      .error "unknown trait `Hash`" :=
  unknown_trait_rejected_c5.1 String String String extS [] (.word "Hash") "Hash" []
    {} rfl rfl (by decide)

/-- C9: the facade distinguishes a capability that never appeared from one
present with all defaults: with no annotations every sub-record is `none`,
while a bare capability annotation makes exactly that sub-record `some`
(with default contents), an observably different configuration. -/
theorem absent_vs_default_distinct_c9 :
    (∀ (P Pa E : Type) (ext : Ext P Pa E),
      Input.from_ast ext [] = (.ok {} : Except String (Input P))) ∧
    (∀ (P : Type) (c : TCap), c.present ({} : Input P) = false) ∧
    (∀ (P Pa E : Type) (ext : Ext P Pa E) (c : TCap),
      ∃ input, Input.from_ast ext [⟨.list "derivative" [.word c.name]⟩] =
        .ok input ∧ c.present input = true) := by
  refine ⟨fun P Pa E ext => rfl, fun P c => by cases c <;> rfl,
    fun P Pa E ext c => ?_⟩
  cases c <;> exact ⟨_, rfl, rfl⟩

end Derivative

namespace Derivative

/-- C6: option keys are dispatched in order against the capability's
whitelist, and the first unrecognized key aborts with `unknown attribute`
naming it; the whitelists are exactly the per-capability key sets, at both
scopes, and the abort propagates to the whole parse. -/
theorem unknown_attribute_rejected_c6 :
    (∀ (A : Type) (hs : Handlers A) (pre : List (String × Option String))
        (k : String) (v : Option String) (rest : List (String × Option String))
        (a a' : A),
      find_handler k hs = none → match_attributes hs a pre = .ok a' →
      match_attributes hs a (pre ++ (k, v) :: rest) =
        .error ("unknown attribute `" ++ k ++ "`")) ∧
    (∀ (P Pa E : Type) (ext : Ext P Pa E) (k : String),
      (find_handler k (clone_handlers ext) = none ↔ k ∉ TCap.clone.keys) ∧
      (find_handler k (copy_handlers ext) = none ↔ k ∉ TCap.copy.keys) ∧
      (find_handler k (debug_handlers ext) = none ↔ k ∉ TCap.debug.keys) ∧
      (find_handler k (default_handlers ext) = none ↔ k ∉ TCap.default.keys) ∧
      (find_handler k (eq_handlers ext) = none ↔ k ∉ TCap.eq.keys) ∧
      (find_handler k (partial_eq_handlers ext) = none ↔ k ∉ TCap.partialEq.keys)) ∧
    (∀ (P Pa E : Type) (ext : Ext P Pa E) (c : FCap) (k : String),
      find_handler k (c.handlers ext) = none ↔ k ∉ c.keys) ∧
    (∀ (P Pa E : Type) (ext : Ext P Pa E) (c : TCap) (k v : String),
      k ∉ c.keys →
      Input.from_ast ext [option_attr c.name k v] =
        .error ("unknown attribute `" ++ k ++ "`")) ∧
    (∀ (P Pa E : Type) (ext : Ext P Pa E) (c : FCap) (k v : String),
      k ∉ c.keys →
      Field.from_ast ext ⟨[option_attr c.name k v]⟩ =
        .error ("unknown attribute `" ++ k ++ "`")) := by
  refine ⟨?_, ?_, ?_, ?_, ?_⟩
  · intro A hs pre k v rest a a' hk hpre
    exact match_attributes_unknown_key hs pre k v rest a a' hk hpre
  · intro P Pa E ext k
    refine ⟨?_, ?_, ?_, ?_, ?_, ?_⟩ <;>
      (rw [find_handler_eq_none];
       simp [clone_handlers, copy_handlers, debug_handlers, default_handlers,
         eq_handlers, partial_eq_handlers, TCap.keys])
  · intro P Pa E ext c k
    cases c <;>
      (rw [find_handler_eq_none];
       simp [FCap.handlers, field_debug_handlers, field_default_handlers,
         field_eq_handlers, field_partial_eq_handlers, FCap.keys])
  · intro P Pa E ext c k v hk
    cases c with
    | clone =>
      have hf : find_handler k (clone_handlers ext) = none := by
        rw [find_handler_eq_none]
        simpa [clone_handlers, TCap.keys] using hk
      have h1 := match_attributes_single_none (clone_handlers ext) ({} : InputClone P) k (some v) hf
      have h2 : Input.run_item ext ({} : Input P)
          (MetaItem.list "Clone" [.nameValue k (.str v)]) =
          .error ("unknown attribute `" ++ k ++ "`") := by
        have h0 : Input.run_item ext ({} : Input P)
            (MetaItem.list "Clone" [.nameValue k (.str v)]) =
            (match_attributes (clone_handlers ext) ({} : InputClone P) [(k, some v)]).map
              (fun x => { ({} : Input P) with clone := some x }) := rfl
        rw [h0, h1]
        rfl
      show Input.run_all ext {} [[MetaItem.list "Clone" [.nameValue k (.str v)]]] = _
      simp only [Input.run_all, Input.run_block, h2]
    | copy =>
      have hf : find_handler k (copy_handlers ext) = none := by
        rw [find_handler_eq_none]
        simpa [copy_handlers, TCap.keys] using hk
      have h1 := match_attributes_single_none (copy_handlers ext) ({} : InputCopy P) k (some v) hf
      have h2 : Input.run_item ext ({} : Input P)
          (MetaItem.list "Copy" [.nameValue k (.str v)]) =
          .error ("unknown attribute `" ++ k ++ "`") := by
        have h0 : Input.run_item ext ({} : Input P)
            (MetaItem.list "Copy" [.nameValue k (.str v)]) =
            (match_attributes (copy_handlers ext) ({} : InputCopy P) [(k, some v)]).map
              (fun x => { ({} : Input P) with copy := some x }) := rfl
        rw [h0, h1]
        rfl
      show Input.run_all ext {} [[MetaItem.list "Copy" [.nameValue k (.str v)]]] = _
      simp only [Input.run_all, Input.run_block, h2]
    | debug =>
      have hf : find_handler k (debug_handlers ext) = none := by
        rw [find_handler_eq_none]
        simpa [debug_handlers, TCap.keys] using hk
      have h1 := match_attributes_single_none (debug_handlers ext) ({} : InputDebug P) k (some v) hf
      have h2 : Input.run_item ext ({} : Input P)
          (MetaItem.list "Debug" [.nameValue k (.str v)]) =
          .error ("unknown attribute `" ++ k ++ "`") := by
        have h0 : Input.run_item ext ({} : Input P)
            (MetaItem.list "Debug" [.nameValue k (.str v)]) =
            (match_attributes (debug_handlers ext) ({} : InputDebug P) [(k, some v)]).map
              (fun x => { ({} : Input P) with debug := some x }) := rfl
        rw [h0, h1]
        rfl
      show Input.run_all ext {} [[MetaItem.list "Debug" [.nameValue k (.str v)]]] = _
      simp only [Input.run_all, Input.run_block, h2]
    | default =>
      have hf : find_handler k (default_handlers ext) = none := by
        rw [find_handler_eq_none]
        simpa [default_handlers, TCap.keys] using hk
      have h1 := match_attributes_single_none (default_handlers ext) ({} : InputDefault P) k (some v) hf
      have h2 : Input.run_item ext ({} : Input P)
          (MetaItem.list "Default" [.nameValue k (.str v)]) =
          .error ("unknown attribute `" ++ k ++ "`") := by
        have h0 : Input.run_item ext ({} : Input P)
            (MetaItem.list "Default" [.nameValue k (.str v)]) =
            (match_attributes (default_handlers ext) ({} : InputDefault P) [(k, some v)]).map
              (fun x => { ({} : Input P) with default := some x }) := rfl
        rw [h0, h1]
        rfl
      show Input.run_all ext {} [[MetaItem.list "Default" [.nameValue k (.str v)]]] = _
      simp only [Input.run_all, Input.run_block, h2]
    | eq =>
      have hf : find_handler k (eq_handlers ext) = none := by
        rw [find_handler_eq_none]
        simpa [eq_handlers, TCap.keys] using hk
      have h1 := match_attributes_single_none (eq_handlers ext) ({} : InputEq P) k (some v) hf
      have h2 : Input.run_item ext ({} : Input P)
          (MetaItem.list "Eq" [.nameValue k (.str v)]) =
          .error ("unknown attribute `" ++ k ++ "`") := by
        have h0 : Input.run_item ext ({} : Input P)
            (MetaItem.list "Eq" [.nameValue k (.str v)]) =
            (match_attributes (eq_handlers ext) ({} : InputEq P) [(k, some v)]).map
              (fun x => { ({} : Input P) with eq := some x }) := rfl
        rw [h0, h1]
        rfl
      show Input.run_all ext {} [[MetaItem.list "Eq" [.nameValue k (.str v)]]] = _
      simp only [Input.run_all, Input.run_block, h2]
    | partialEq =>
      have hf : find_handler k (partial_eq_handlers ext) = none := by
        rw [find_handler_eq_none]
        simpa [partial_eq_handlers, TCap.keys] using hk
      have h1 := match_attributes_single_none (partial_eq_handlers ext) ({} : InputPartialEq P) k (some v) hf
      have h2 : Input.run_item ext ({} : Input P)
          (MetaItem.list "PartialEq" [.nameValue k (.str v)]) =
          .error ("unknown attribute `" ++ k ++ "`") := by
        have h0 : Input.run_item ext ({} : Input P)
            (MetaItem.list "PartialEq" [.nameValue k (.str v)]) =
            (match_attributes (partial_eq_handlers ext) ({} : InputPartialEq P) [(k, some v)]).map
              (fun x => { ({} : Input P) with partial_eq := some x }) := rfl
        rw [h0, h1]
        rfl
      show Input.run_all ext {} [[MetaItem.list "PartialEq" [.nameValue k (.str v)]]] = _
      simp only [Input.run_all, Input.run_block, h2]
  · intro P Pa E ext c k v hk
    cases c with
    | debug =>
      have hf : find_handler k (field_debug_handlers ext) = none := by
        rw [find_handler_eq_none]
        simpa [field_debug_handlers, FCap.keys] using hk
      have h1 := match_attributes_single_none (field_debug_handlers ext)
        ({} : Field P Pa E) k (some v) hf
      have h2 : Field.run_item ext ({} : Field P Pa E)
          (MetaItem.list "Debug" [.nameValue k (.str v)]) =
          .error ("unknown attribute `" ++ k ++ "`") := by
        have h0 : Field.run_item ext ({} : Field P Pa E)
            (MetaItem.list "Debug" [.nameValue k (.str v)]) =
            match_attributes (field_debug_handlers ext) ({} : Field P Pa E) [(k, some v)] := rfl
        rw [h0, h1]
      show Field.run_all ext {} [[MetaItem.list "Debug" [.nameValue k (.str v)]]] = _
      simp only [Field.run_all, Field.run_block, h2]
    | default =>
      have hf : find_handler k (field_default_handlers ext) = none := by
        rw [find_handler_eq_none]
        simpa [field_default_handlers, FCap.keys] using hk
      have h1 := match_attributes_single_none (field_default_handlers ext)
        ({} : Field P Pa E) k (some v) hf
      have h2 : Field.run_item ext ({} : Field P Pa E)
          (MetaItem.list "Default" [.nameValue k (.str v)]) =
          .error ("unknown attribute `" ++ k ++ "`") := by
        have h0 : Field.run_item ext ({} : Field P Pa E)
            (MetaItem.list "Default" [.nameValue k (.str v)]) =
            match_attributes (field_default_handlers ext) ({} : Field P Pa E) [(k, some v)] := rfl
        rw [h0, h1]
      show Field.run_all ext {} [[MetaItem.list "Default" [.nameValue k (.str v)]]] = _
      simp only [Field.run_all, Field.run_block, h2]
    | eq =>
      have hf : find_handler k (field_eq_handlers ext) = none := by
        rw [find_handler_eq_none]
        simpa [field_eq_handlers, FCap.keys] using hk
      have h1 := match_attributes_single_none (field_eq_handlers ext)
        ({} : Field P Pa E) k (some v) hf
      have h2 : Field.run_item ext ({} : Field P Pa E)
          (MetaItem.list "Eq" [.nameValue k (.str v)]) =
          .error ("unknown attribute `" ++ k ++ "`") := by
        have h0 : Field.run_item ext ({} : Field P Pa E)
            (MetaItem.list "Eq" [.nameValue k (.str v)]) =
            match_attributes (field_eq_handlers ext) ({} : Field P Pa E) [(k, some v)] := rfl
        rw [h0, h1]
      show Field.run_all ext {} [[MetaItem.list "Eq" [.nameValue k (.str v)]]] = _
      simp only [Field.run_all, Field.run_block, h2]
    | partialEq =>
      have hf : find_handler k (field_partial_eq_handlers ext) = none := by
        rw [find_handler_eq_none]
        simpa [field_partial_eq_handlers, FCap.keys] using hk
      have h1 := match_attributes_single_none (field_partial_eq_handlers ext)
        ({} : Field P Pa E) k (some v) hf
      have h2 : Field.run_item ext ({} : Field P Pa E)
          (MetaItem.list "PartialEq" [.nameValue k (.str v)]) =
          .error ("unknown attribute `" ++ k ++ "`") := by
        have h0 : Field.run_item ext ({} : Field P Pa E)
            (MetaItem.list "PartialEq" [.nameValue k (.str v)]) =
            match_attributes (field_partial_eq_handlers ext) ({} : Field P Pa E) [(k, some v)] := rfl
        rw [h0, h1]
      show Field.run_all ext {} [[MetaItem.list "PartialEq" [.nameValue k (.str v)]]] = _
      simp only [Field.run_all, Field.run_block, h2]

/-- Witness for C6 at a concrete input: `derivative(Debug(bogus="x"))` on a
type fails with an error containing `bogus`. -/
theorem unknown_attribute_rejected_c6_witness :
    Input.from_ast extS [option_attr "Debug" "bogus" "x"] =
      .error "unknown attribute `bogus`" :=
  unknown_attribute_rejected_c6.2.2.2.1 String String String extS TCap.debug
    "bogus" "x" (by decide)

end Derivative

namespace Derivative

/-- C7 counterexample: `derivative(Debug(transparent))` on a field fails with
the reader's shape error `Expected named value`, not an unknown-attribute
error. -/
theorem field_transparent_shape_error_c7_cex :
    Field.from_ast extS
        ⟨[⟨.list "derivative" [.list "Debug" [.word "transparent"]]⟩]⟩ =
      .error "Expected named value" ∧
    ("Expected named value" : String) ≠ "unknown attribute `transparent`" :=
  ⟨rfl, by decide⟩

/-- C7 (amended): `derivative(Debug(transparent))` on a field — a bare word in
list form — fails with the reader's `Expected named value` before any
whitelist check; the type-only keys `clone_from`, `transparent` and `new` are
on no field-scope whitelist, so any normalized field-scope occurrence of them
aborts as `unknown attribute` (for example `Debug(transparent="true")` and
`Default(new="true")`), while `Clone` itself is rejected at field scope as an
unknown trait. -/
theorem field_type_only_options_c7 :
    (∀ (P Pa E : Type) (ext : Ext P Pa E),
      Field.from_ast ext
          ⟨[⟨.list "derivative" [.list "Debug" [.word "transparent"]]⟩]⟩ =
        (.error "Expected named value" : Except String (Field P Pa E))) ∧
    (∀ (P Pa E : Type) (ext : Ext P Pa E) (c : FCap) (k : String)
        (v : Option String) (pre rest : List (String × Option String))
        (a a' : Field P Pa E),
      k ∈ ["clone_from", "transparent", "new"] →
      match_attributes (c.handlers ext) a pre = .ok a' →
      match_attributes (c.handlers ext) a (pre ++ (k, v) :: rest) =
        .error ("unknown attribute `" ++ k ++ "`")) ∧
    (∀ (P Pa E : Type) (ext : Ext P Pa E) (v : String),
      Field.from_ast ext ⟨[option_attr "Debug" "transparent" v]⟩ =
        (.error "unknown attribute `transparent`" : Except String (Field P Pa E)) ∧
      Field.from_ast ext ⟨[option_attr "Default" "new" v]⟩ =
        (.error "unknown attribute `new`" : Except String (Field P Pa E)) ∧
      Field.from_ast ext ⟨[option_attr "Clone" "clone_from" v]⟩ =
        (.error "unknown trait `Clone`" : Except String (Field P Pa E))) := by
  refine ⟨fun _ _ _ _ => rfl, ?_, fun _ _ _ _ _ => ⟨rfl, rfl, rfl⟩⟩
  intro P Pa E ext c k v pre rest a a' hk hpre
  have hf : find_handler k (c.handlers ext) = none := by
    simp only [List.mem_cons, List.not_mem_nil, or_false] at hk
    cases c <;> (rcases hk with rfl | rfl | rfl <;> rfl)
  exact match_attributes_unknown_key _ pre k v rest a a' hf hpre

/-- Witness for C7 at a concrete input: the normalized key `transparent`
aborts the field-scope Debug accumulator as an unknown attribute. -/
theorem field_type_only_options_c7_witness :
    match_attributes (FCap.debug.handlers extS) ({} : Field String String String)
        [("transparent", some "true")] =
      .error "unknown attribute `transparent`" :=
  field_type_only_options_c7.2.1 String String String extS FCap.debug
    "transparent" (some "true") [] [] {} {} (by decide) rfl

/-- C8 counterexample: `derivative(Debug(format_with))` on a field fails with
`Expected named value`, whose text does not contain `format_with`. -/
theorem format_with_bare_c8_cex :
    Field.from_ast extS
        ⟨[⟨.list "derivative" [.list "Debug" [.word "format_with"]]⟩]⟩ =
      .error "Expected named value" ∧
    ¬ ("format_with".data <:+: "Expected named value".data) :=
  ⟨rfl, by decide⟩

/-- C8 (amended): `derivative(Debug(format_with))` on a field — a bare word in
list form — fails, but with the reader's `Expected named value`, which does
not name the option; the absent-value form that reaches the accumulator, the
shorthand `Debug="format_with"`, fails with an error naming `format_with`. -/
theorem format_with_bare_c8 :
    (∀ (P Pa E : Type) (ext : Ext P Pa E),
      Field.from_ast ext
          ⟨[⟨.list "derivative" [.list "Debug" [.word "format_with"]]⟩]⟩ =
        (.error "Expected named value" : Except String (Field P Pa E))) ∧
    (∀ (P Pa E : Type) (ext : Ext P Pa E),
      Field.from_ast ext ⟨[shorthand_attr "Debug" "format_with"]⟩ =
        (.error "`format_with` needs a value" : Except String (Field P Pa E))) :=
  ⟨fun _ _ _ _ => rfl, fun _ _ _ _ => rfl⟩

theorem keeps_cc_bound_handler {P Pa E : Type} (ext : Ext P Pa E)
    (get : Field P Pa E → Option (List P))
    (upd : Field P Pa E → Option (List P) → Field P Pa E)
    (hu : ∀ a b, (upd a b).clone = a.clone ∧ (upd a b).copy_bound = a.copy_bound) :
    keeps_cc (bound_handler ext get upd) := by
  intro a v a' h
  unfold bound_handler at h
  cases hg : parse_bound ext (get a) v with
  | error e =>
    rw [hg] at h
    simp only [Except.map] at h
    exact Except.noConfusion h
  | ok b =>
    rw [hg] at h
    simp only [Except.map] at h
    obtain rfl : upd a b = a' := by simpa using h
    exact hu a b

theorem keeps_cc_bool_handler {P Pa E : Type} (d : Bool) (name : String)
    (upd : Field P Pa E → Bool → Field P Pa E)
    (hu : ∀ a b, (upd a b).clone = a.clone ∧ (upd a b).copy_bound = a.copy_bound) :
    keeps_cc (bool_handler d name upd) := by
  intro a v a' h
  unfold bool_handler at h
  cases hg : parse_boolean_meta_item v d name with
  | error e =>
    rw [hg] at h
    simp only [Except.map] at h
    exact Except.noConfusion h
  | ok b =>
    rw [hg] at h
    simp only [Except.map] at h
    obtain rfl : upd a b = a' := by simpa using h
    exact hu a b

theorem field_debug_handlers_keep {P Pa E : Type} (ext : Ext P Pa E) :
    ∀ p ∈ field_debug_handlers ext, keeps_cc p.2 := by
  intro p hp
  simp only [field_debug_handlers, List.mem_cons, List.not_mem_nil, or_false] at hp
  rcases hp with rfl | rfl | rfl
  · exact keeps_cc_bound_handler ext _ _ fun a b => ⟨rfl, rfl⟩
  · intro a v a' h
    cases v with
    | none => exact Except.noConfusion h
    | some path =>
      cases hg : ext.parse_path path with
      | error e =>
        simp only [hg, Except.map] at h
        exact Except.noConfusion h
      | ok pth =>
        simp only [hg, Except.map] at h
        injection h with h2
        subst h2
        exact ⟨rfl, rfl⟩
  · exact keeps_cc_bool_handler _ _ _ fun a b => ⟨rfl, rfl⟩

theorem field_default_handlers_keep {P Pa E : Type} (ext : Ext P Pa E) :
    ∀ p ∈ field_default_handlers ext, keeps_cc p.2 := by
  intro p hp
  simp only [field_default_handlers, List.mem_cons, List.not_mem_nil, or_false] at hp
  rcases hp with rfl | rfl
  · exact keeps_cc_bound_handler ext _ _ fun a b => ⟨rfl, rfl⟩
  · intro a v a' h
    cases v with
    | none => exact Except.noConfusion h
    | some s =>
      cases hg : ext.parse_expr s with
      | error e =>
        simp only [hg, Except.map] at h
        exact Except.noConfusion h
      | ok x =>
        simp only [hg, Except.map] at h
        injection h with h2
        subst h2
        exact ⟨rfl, rfl⟩

theorem field_eq_handlers_keep {P Pa E : Type} (ext : Ext P Pa E) :
    ∀ p ∈ field_eq_handlers ext, keeps_cc p.2 := by
  intro p hp
  simp only [field_eq_handlers, List.mem_cons, List.not_mem_nil, or_false] at hp
  rcases hp with rfl
  exact keeps_cc_bound_handler ext _ _ fun a b => ⟨rfl, rfl⟩

theorem field_partial_eq_handlers_keep {P Pa E : Type} (ext : Ext P Pa E) :
    ∀ p ∈ field_partial_eq_handlers ext, keeps_cc p.2 := by
  intro p hp
  simp only [field_partial_eq_handlers, List.mem_cons, List.not_mem_nil,
    or_false] at hp
  rcases hp with rfl | rfl | rfl
  · exact keeps_cc_bound_handler ext _ _ fun a b => ⟨rfl, rfl⟩
  · intro a v a' h
    cases v with
    | none => exact Except.noConfusion h
    | some path =>
      cases hg : ext.parse_path path with
      | error e =>
        simp only [hg, Except.map] at h
        exact Except.noConfusion h
      | ok pth =>
        simp only [hg, Except.map] at h
        injection h with h2
        subst h2
        exact ⟨rfl, rfl⟩
  · exact keeps_cc_bool_handler _ _ _ fun a b => ⟨rfl, rfl⟩

theorem match_attributes_keeps {P Pa E : Type} (hs : Handlers (Field P Pa E))
    (hh : ∀ p ∈ hs, keeps_cc p.2) :
    ∀ (vs : List (String × Option String)) (a a' : Field P Pa E),
      match_attributes hs a vs = .ok a' →
      a'.clone = a.clone ∧ a'.copy_bound = a.copy_bound := by
  intro vs
  induction vs with
  | nil =>
    intro a a' h
    obtain rfl : a = a' := by simpa [match_attributes] using h
    exact ⟨rfl, rfl⟩
  | cons kv vs ih =>
    obtain ⟨k, v⟩ := kv
    intro a a' h
    cases hf : find_handler k hs with
    | none =>
      simp only [match_attributes, hf] at h
      exact Except.noConfusion h
    | some handler =>
      cases hha : handler a v with
      | error e =>
        simp only [match_attributes, hf, hha] at h
        exact Except.noConfusion h
      | ok a1 =>
        simp only [match_attributes, hf, hha] at h
        have hk1 := hh (k, handler) (find_handler_mem k hs handler hf) a v a1 hha
        have hk2 := ih a1 a' h
        exact ⟨hk2.1.trans hk1.1, hk2.2.trans hk1.2⟩

theorem field_run_item_keeps {P Pa E : Type} (ext : Ext P Pa E)
    (out : Field P Pa E) (item : MetaItem) (out' : Field P Pa E)
    (h : Field.run_item ext out item = .ok out') :
    out'.clone = out.clone ∧ out'.copy_bound = out.copy_bound := by
  cases hri : read_items item with
  | error e =>
    simp only [Field.run_item, hri] at h
    exact Except.noConfusion h
  | ok p =>
    obtain ⟨name, values⟩ := p
    simp only [Field.run_item, hri] at h
    by_cases h1 : name = "Debug"
    · rw [if_pos h1] at h
      exact match_attributes_keeps _ (field_debug_handlers_keep ext) values out out' h
    · rw [if_neg h1] at h
      by_cases h2 : name = "Default"
      · rw [if_pos h2] at h
        exact match_attributes_keeps _ (field_default_handlers_keep ext) values out out' h
      · rw [if_neg h2] at h
        by_cases h3 : name = "Eq"
        · rw [if_pos h3] at h
          exact match_attributes_keeps _ (field_eq_handlers_keep ext) values out out' h
        · rw [if_neg h3] at h
          by_cases h4 : name = "PartialEq"
          · rw [if_pos h4] at h
            exact match_attributes_keeps _ (field_partial_eq_handlers_keep ext)
              values out out' h
          · rw [if_neg h4] at h
            exact Except.noConfusion h

theorem field_run_block_keeps {P Pa E : Type} (ext : Ext P Pa E) :
    ∀ (items : List MetaItem) (out out' : Field P Pa E),
      Field.run_block ext out items = .ok out' →
      out'.clone = out.clone ∧ out'.copy_bound = out.copy_bound := by
  intro items
  induction items with
  | nil =>
    intro out out' h
    obtain rfl : out = out' := by simpa [Field.run_block] using h
    exact ⟨rfl, rfl⟩
  | cons item items ih =>
    intro out out' h
    cases hm : Field.run_item ext out item with
    | error e =>
      simp only [Field.run_block, hm] at h
      exact Except.noConfusion h
    | ok o1 =>
      simp only [Field.run_block, hm] at h
      have hk1 := field_run_item_keeps ext out item o1 hm
      have hk2 := ih o1 out' h
      exact ⟨hk2.1.trans hk1.1, hk2.2.trans hk1.2⟩

theorem field_run_all_keeps {P Pa E : Type} (ext : Ext P Pa E) :
    ∀ (blocks : List (List MetaItem)) (out out' : Field P Pa E),
      Field.run_all ext out blocks = .ok out' →
      out'.clone = out.clone ∧ out'.copy_bound = out.copy_bound := by
  intro blocks
  induction blocks with
  | nil =>
    intro out out' h
    obtain rfl : out = out' := by simpa [Field.run_all] using h
    exact ⟨rfl, rfl⟩
  | cons mis blocks ih =>
    intro out out' h
    cases hm : Field.run_block ext out mis with
    | error e =>
      simp only [Field.run_all, hm] at h
      exact Except.noConfusion h
    | ok o1 =>
      simp only [Field.run_all, hm] at h
      have hk1 := field_run_block_keeps ext mis out o1 hm
      have hk2 := ih o1 out' h
      exact ⟨hk2.1.trans hk1.1, hk2.2.trans hk1.2⟩

/-- C10: the field-level parser recognizes only Debug, Default, Eq and
PartialEq — `Clone` or `Copy` on a field is an unknown-trait error — and on
every configuration it can produce the accessors `clone_bound` and
`copy_bound` return `none`. -/
theorem field_no_clone_copy_c10 :
    (∀ (P Pa E : Type) (ext : Ext P Pa E) (field : SynField) (out : Field P Pa E),
      Field.from_ast ext field = .ok out →
      out.clone_bound = none ∧ out.copy_bound = none) ∧
    (∀ (P Pa E : Type) (ext : Ext P Pa E),
      Field.from_ast ext ⟨[⟨.list "derivative" [.word "Clone"]⟩]⟩ =
        (.error "unknown trait `Clone`" : Except String (Field P Pa E)) ∧
      Field.from_ast ext ⟨[⟨.list "derivative" [.word "Copy"]⟩]⟩ =
        (.error "unknown trait `Copy`" : Except String (Field P Pa E))) := by
  constructor
  · intro P Pa E ext field out h
    have hk := field_run_all_keeps ext (field.attrs.filterMap derivative_attribute)
      ({} : Field P Pa E) out h
    constructor
    · show out.clone.bounds = none
      rw [hk.1]
    · exact hk.2.trans rfl
  · intro P Pa E ext
    exact ⟨rfl, rfl⟩

/-- Witness for C10 at a concrete input: a field annotated only with a Debug
bound still reports no Clone or Copy bound. -/
theorem field_no_clone_copy_c10_witness :
    ({ debug := { bounds := some ["where T: Copy"] } } :
        Field String String String).clone_bound = none ∧
    ({ debug := { bounds := some ["where T: Copy"] } } :
        Field String String String).copy_bound = none :=
  field_no_clone_copy_c10.1 String String String extS
    ⟨[bound_attr "Debug" "T: Copy"]⟩ _ rfl

end Derivative
